import Mathlib

/-!
Shallow embedding of the `project-manager` TypeScript application
(a browser project tracker: a singleton observable store of projects,
a validation helper, a form input view and two filtered list views),
together with theorems settling the specification claims.

JavaScript strings are modelled as `List Char`; JavaScript numbers are
modelled as `Rat` (exact rationals; `NaN`/`Infinity` are outside the
model — every code path relevant here rejects them via the numeric
range checks, so excluding them only removes rejected inputs).
-/

/-! ## Definitions: shallow embedding of the program -/

/-- JavaScript string, modelled as a list of characters. -/
abbrev JStr := List Char

/-- The characters `String.prototype.trim` removes: ECMAScript WhiteSpace
and LineTerminator code points. -/
def isJsWS (c : Char) : Bool :=
  c.toNat ∈ [9, 10, 11, 12, 13, 32, 160, 0x1680,
    0x2000, 0x2001, 0x2002, 0x2003, 0x2004, 0x2005, 0x2006, 0x2007,
    0x2008, 0x2009, 0x200A, 0x2028, 0x2029, 0x202F, 0x205F, 0x3000, 0xFEFF]

/-- Embedding of `value.toString().trim()`'s trimming step: drop leading
and trailing whitespace (`String.prototype.trim`). -/
def jsTrim (s : JStr) : JStr :=
  ((s.dropWhile isJsWS).reverse.dropWhile isJsWS).reverse

/-- Decimal digit character for `d < 10` (used to render numbers). -/
def digitChar : Nat → Char
  | 0 => '0' | 1 => '1' | 2 => '2' | 3 => '3' | 4 => '4'
  | 5 => '5' | 6 => '6' | 7 => '7' | 8 => '8' | 9 => '9'
  | _ => '0'

/-- Fuel-indexed digit accumulator: peels decimal digits of `n` onto `acc`,
least significant first.  Structural recursion on the fuel keeps the
definition kernel-reducible; `natToChars` supplies ample fuel. -/
def natToCharsCore : Nat → Nat → List Char → List Char
  | 0, _, acc => acc
  | fuel + 1, n, acc =>
    if n < 10 then digitChar n :: acc
    else natToCharsCore fuel (n / 10) (digitChar (n % 10) :: acc)

/-- Decimal digits of a natural number, most significant first
(the rendering `Number.prototype.toString` uses for naturals). -/
def natToChars (n : Nat) : List Char :=
  natToCharsCore (n + 1) n []

/-- Decimal rendering of an integer: a minus sign followed by digits
when negative. -/
def intToChars (i : Int) : List Char :=
  if i < 0 then '-' :: natToChars i.natAbs else natToChars i.toNat

/-- Embedding of `Number.prototype.toString` on the rational model of
JavaScript numbers.  Integers render exactly as in JavaScript; for
non-integers the exact decimal rendering of the underlying float is not
reproduced — the model renders `num/den` — but every rendering consists
of sign, digits and a separator, so the only property the program ever
reads off this string (`validate`'s `toString().trim().length !== 0`
required check) agrees with JavaScript on all numbers. -/
def ratToChars (q : Rat) : List Char :=
  if q.den = 1 then intToChars q.num
  else intToChars q.num ++ '/' :: natToChars q.den

/-- The `string | number` union type of `Validatable.value`. -/
inductive JSValue where
  | str (s : JStr)
  | num (q : Rat)
deriving DecidableEq

/-- Embedding of `value.toString()` on the union type. -/
def JSValue.jsToString : JSValue → JStr
  | .str s => s
  | .num q => ratToChars q

/-- The `Validatable` interface: a value plus optional constraints.
`Option` models the optional (`?:`) fields; an absent field is `none`. -/
structure Validatable where
  value : JSValue
  required : Option Bool
  minLength : Option Int
  maxLength : Option Int
  min : Option Rat
  max : Option Rat
deriving DecidableEq

/-- Embedding of the `validate` function: a sequence of guarded
conjunctions onto an accumulator `isValid` initialised to `true`.
`if (input.required)` is a truthiness test (`getD false`);
`input.minLength != null` is presence (`Option` pattern); the
`typeof` guards select the string/number branch of the union. -/
def validate (v : Validatable) : Bool :=
  let isValid := true
  let isValid :=
    if v.required.getD false then
      isValid && ((jsTrim v.value.jsToString).length != 0)
    else isValid
  let isValid :=
    match v.minLength, v.value with
    | some m, .str s => isValid && decide (m ≤ (s.length : Int))
    | _, _ => isValid
  let isValid :=
    match v.maxLength, v.value with
    | some m, .str s => isValid && decide ((s.length : Int) ≤ m)
    | _, _ => isValid
  let isValid :=
    match v.min, v.value with
    | some m, .num q => isValid && decide (m ≤ q)
    | _, _ => isValid
  let isValid :=
    match v.max, v.value with
    | some m, .num q => isValid && decide (q ≤ m)
    | _, _ => isValid
  isValid

/-- The rational 3/2, written via the raw constructor so that kernel
reduction (`decide`) can evaluate it. -/
def threeHalves : Rat := ⟨3, 2, by decide, by decide⟩

/-- The `ProjectStatus` enum. -/
inductive ProjectStatus where
  | Active
  | Finished
deriving DecidableEq

/-- The `Project` record: `id, title, description, people, status`. -/
structure Project where
  id : JStr
  title : JStr
  description : JStr
  people : Rat
  status : ProjectStatus
deriving DecidableEq

/-- The `ProjectState` store.  `projects` is the canonical list; the
registered listeners are external callbacks, so the embedding records
only how many are registered (`listeners`, the length of the
`listeners` array) — a notification broadcast is modelled by
`notifyAll` below. -/
structure ProjectState where
  projects : List Project
  listeners : Nat
deriving DecidableEq

/-- Embedding of `State.addListener`: pushes one callback. -/
def addListener (s : ProjectState) : ProjectState :=
  { s with listeners := s.listeners + 1 }

/-- The broadcast loop `for (const listener of this.listeners)
listener(this.projects.slice())`: every registered listener receives the
same full-list snapshot. -/
def notifyAll (listenerCount : Nat) (snapshot : List Project) : List (List Project) :=
  List.replicate listenerCount snapshot

/-- Embedding of `ProjectState.addProjects(title, description, people)`.
The id produced by `Math.random().toString()` is nondeterministic, so it
enters the model as the argument `newId`.  Returns the updated store and
the snapshot (`this.projects.slice()`) handed to each listener. -/
def addProjects (s : ProjectState) (newId title description : JStr) (people : Rat) :
    ProjectState × List Project :=
  let project : Project := ⟨newId, title, description, people, ProjectStatus.Active⟩
  let projects := s.projects ++ [project]
  (⟨projects, s.listeners⟩, projects)

/-- Replace the status of the first project whose `id` matches (the
object located by a first-match search is mutated in place, so later
duplicates are untouched). -/
def setStatusFirst : List Project → JStr → ProjectStatus → List Project
  | [], _, _ => []
  | p :: ps, targetId, st =>
    if p.id = targetId then { p with status := st } :: ps
    else p :: setStatusFirst ps targetId st

/-- Modelled from the spec: `ProjectState.moveProject` is not part of the
available sources (only its caller `ProjectList.dropHandler` appears, in
`src/components/project-list.ts`).  Per the spec it "locates project by
id; if found and `newStatus` differs from current, mutates status and
notifies listeners; no-op (silently) if id not found or status
unchanged."  Returns the updated store and `some snapshot` when
listeners were notified, `none` on the silent no-op. -/
def moveProject (s : ProjectState) (targetId : JStr) (newStatus : ProjectStatus) :
    ProjectState × Option (List Project) :=
  match s.projects.find? (fun p => p.id = targetId) with
  | none => (s, none)
  | some p =>
    if p.status = newStatus then (s, none)
    else
      let projects := setStatusFirst s.projects targetId newStatus
      (⟨projects, s.listeners⟩, some projects)

/-- The three raw form field values (`HTMLInputElement.value` strings). -/
structure InputFields where
  title : JStr
  description : JStr
  people : JStr
deriving DecidableEq

/-- The title validation request built by `gatherUserInput`. -/
def titleValidatable (f : InputFields) : Validatable :=
  ⟨.str f.title, some true, none, none, none, none⟩

/-- The description validation request built by `gatherUserInput`
(required, minLength 5). -/
def descriptionValidatable (f : InputFields) : Validatable :=
  ⟨.str f.description, some true, some 5, none, none, none⟩

/-- The people validation request built by `gatherUserInput`
(required, min 1, max 5) on the numeric value `+enterdPeople`. -/
def peopleValidatable (peopleNum : Rat) : Validatable :=
  ⟨.num peopleNum, some true, none, none, some 1, some 5⟩

/-- Embedding of `ProjectInput.gatherUserInput`.  The unary-plus
string-to-number conversion `+enterdPeople` is nondeterministic float
parsing outside the rational model, so its result enters as the
argument `peopleNum` (`NaN` inputs are outside the model; they fail the
`min` check and are rejected just like every other invalid value).
Returns `none` when the alert fires and the submission is rejected. -/
def gatherUserInput (f : InputFields) (peopleNum : Rat) : Option (JStr × JStr × Rat) :=
  if !validate (titleValidatable f) || !validate (descriptionValidatable f)
      || !validate (peopleValidatable peopleNum) then
    none
  else
    some (f.title, f.description, peopleNum)

/-- Embedding of `ProjectInput.clearInputs`: sets all three fields to
the empty string. -/
def clearInputs (_ : InputFields) : InputFields :=
  ⟨[], [], []⟩

/-- The observable outcome of one `submitHandler` run: the store
afterwards, the snapshot broadcast to listeners (if any), the form
fields afterwards, and whether the alert fired. -/
structure SubmitResult where
  state : ProjectState
  snapshot : Option (List Project)
  fields : InputFields
  alerted : Bool
deriving DecidableEq

/-- Embedding of `ProjectInput.submitHandler`: gathers the user input;
on success forwards to `projectState.addProjects` and clears the form,
otherwise leaves everything untouched (the alert fired inside
`gatherUserInput`). -/
def submitHandler (s : ProjectState) (f : InputFields) (peopleNum : Rat) (freshId : JStr) :
    SubmitResult :=
  match gatherUserInput f peopleNum with
  | none => ⟨s, none, f, true⟩
  | some (title, desc, people) =>
    let r := addProjects s freshId title desc people
    ⟨r.1, some r.2, clearInputs f, false⟩

/-- The `"active" | "finished"` type tag of a `ProjectList` instance. -/
inductive ListType where
  | active
  | finished
deriving DecidableEq

/-- The filter predicate of the listener registered in
`ProjectList.configure`: `if (this.type == "active") return proj.status
=== ProjectStatus.Active; return proj.status === ProjectStatus.Finished`. -/
def matchesListType (t : ListType) (proj : Project) : Bool :=
  match t with
  | .active => proj.status = ProjectStatus.Active
  | .finished => proj.status = ProjectStatus.Finished

/-- The `assignedProjects` a `ProjectList` of type `t` holds after its
listener processed the snapshot `projects`:
`projects.filter(matchesListType t)`. -/
def assignedProjectsAfter (t : ListType) (projects : List Project) : List Project :=
  projects.filter (matchesListType t)

/-- Specification-side reading of the `required` constraint: when present
and set, the value's string conversion trimmed of whitespace must be
nonempty; otherwise it imposes nothing. -/
def requiredPasses (v : Validatable) : Bool :=
  if v.required.getD false then (jsTrim v.value.jsToString).length != 0 else true

/-- Specification-side reading of `minLength`: applies only when present
and the value is a string. -/
def minLengthPasses (v : Validatable) : Bool :=
  match v.minLength, v.value with
  | some m, .str s => decide (m ≤ (s.length : Int))
  | _, _ => true

/-- Specification-side reading of `maxLength`: applies only when present
and the value is a string. -/
def maxLengthPasses (v : Validatable) : Bool :=
  match v.maxLength, v.value with
  | some m, .str s => decide ((s.length : Int) ≤ m)
  | _, _ => true

/-- Specification-side reading of `min`: applies only when present and
the value is a number. -/
def minPasses (v : Validatable) : Bool :=
  match v.min, v.value with
  | some m, .num q => decide (m ≤ q)
  | _, _ => true

/-- Specification-side reading of `max`: applies only when present and
the value is a number. -/
def maxPasses (v : Validatable) : Bool :=
  match v.max, v.value with
  | some m, .num q => decide (q ≤ m)
  | _, _ => true

/-- One recorded `addProjects` call: the id drawn from
`Math.random().toString()` together with the submitted fields. -/
structure AddCall where
  newId : JStr
  title : JStr
  description : JStr
  people : Rat
deriving DecidableEq

/-- Fold a sequence of `addProjects` calls over the store. -/
def runAdds (s : ProjectState) : List AddCall → ProjectState
  | [] => s
  | c :: cs => runAdds (addProjects s c.newId c.title c.description c.people).1 cs

/-- The ids held in the store. -/
def storeIds (s : ProjectState) : List JStr :=
  s.projects.map Project.id

/-- A heap of JavaScript arrays of projects, addressed by reference.
This refines the pure model just enough to express aliasing: reading an
unallocated reference yields the empty array. -/
abbrev ProjHeap := List (List Project)

/-- Dereference an array reference. -/
def heapRead (h : ProjHeap) (r : Nat) : List Project :=
  h.getD r []

/-- Mutate the array behind a reference in place (covers `push`,
`splice`, reordering — any listener-side mutation writes some new
contents through its reference). -/
def heapWrite (h : ProjHeap) (r : Nat) (l : List Project) : ProjHeap :=
  h.set r l

/-- Embedding of `this.projects.slice()`: allocates a fresh array with
the same contents and returns its reference. -/
def jsSlice (h : ProjHeap) (r : Nat) : ProjHeap × Nat :=
  (h ++ [heapRead h r], h.length)

/-- Heap-level embedding of the mutation step of `addProjects`: push the
new project onto the store's canonical array, then build the snapshot
`this.projects.slice()` that the notification loop passes to every
listener.  Returns the heap and the snapshot's reference. -/
def addProjectsAlloc (h : ProjHeap) (storeRef : Nat) (proj : Project) : ProjHeap × Nat :=
  let h1 := heapWrite h storeRef (heapRead h storeRef ++ [proj])
  jsSlice h1 storeRef

/-! ## Theorems: helper lemmas and the claims -/

/-- A successful first-match search decomposes the list into a matchless
prefix, the found element, and a suffix. -/
theorem find?_decomp {α : Type} (f : α → Bool) :
    ∀ (l : List α) (a : α), l.find? f = some a →
      ∃ l₁ l₂, l = l₁ ++ a :: l₂ ∧ (∀ b ∈ l₁, f b = false) ∧ f a = true := by
  intro l
  induction l with
  | nil => intro a h; simp [List.find?] at h
  | cons x xs ih =>
    intro a h
    by_cases hx : f x = true
    · rw [List.find?_cons_of_pos _ hx] at h
      obtain rfl : x = a := by injection h
      exact ⟨[], xs, rfl, by simp, hx⟩
    · rw [List.find?_cons_of_neg _ (by simpa using hx)] at h
      obtain ⟨l₁, l₂, rfl, hl₁, ha⟩ := ih a h
      refine ⟨x :: l₁, l₂, rfl, ?_, ha⟩
      intro b hb
      rcases List.mem_cons.mp hb with rfl | hb'
      · simpa using hx
      · exact hl₁ b hb'

/-- `setStatusFirst` rewrites exactly the first matching element when the
prefix contains no match. -/
theorem setStatusFirst_decomp (targetId : JStr) (st : ProjectStatus) (p : Project)
    (hp : p.id = targetId) :
    ∀ (l₁ l₂ : List Project), (∀ q ∈ l₁, q.id ≠ targetId) →
      setStatusFirst (l₁ ++ p :: l₂) targetId st = l₁ ++ { p with status := st } :: l₂ := by
  intro l₁
  induction l₁ with
  | nil => intro l₂ _; simp [setStatusFirst, hp]
  | cons x xs ih =>
    intro l₂ hmiss
    have hx : x.id ≠ targetId := hmiss x (by simp)
    simp only [List.cons_append, setStatusFirst, if_neg hx]
    exact congrArg (x :: ·) (ih l₂ (fun q hq => hmiss q (by simp [hq])))

/-- C1: for every store state and submission, `addProjects` appends
exactly one new project (so the count rises by exactly 1), carrying the
freshly generated id and status `Active`, and every registered listener
is notified with the full-list snapshot. -/
theorem addProjects_spec (s : ProjectState) (newId title description : JStr) (people : Rat) :
    (addProjects s newId title description people).1.projects
        = s.projects ++ [⟨newId, title, description, people, ProjectStatus.Active⟩]
    ∧ (addProjects s newId title description people).1.projects.length
        = s.projects.length + 1
    ∧ (addProjects s newId title description people).1.listeners = s.listeners
    ∧ (addProjects s newId title description people).2
        = (addProjects s newId title description people).1.projects
    ∧ notifyAll (addProjects s newId title description people).1.listeners
        (addProjects s newId title description people).2
        = List.replicate s.listeners
            (s.projects ++ [⟨newId, title, description, people, ProjectStatus.Active⟩]) := by
  refine ⟨rfl, by simp [addProjects], rfl, rfl, rfl⟩

/-- C2: when the store locates a project with the requested id and the
requested status differs from its current one, exactly that project has
its status changed — every project before and after it in the list is
unchanged in every field, and the changed project keeps all its other
fields — and listeners are notified with the full updated list. -/
theorem moveProject_moves (s : ProjectState) (targetId : JStr) (st : ProjectStatus)
    (p : Project)
    (hfind : s.projects.find? (fun q => q.id = targetId) = some p)
    (hdiff : p.status ≠ st) :
    ∃ before after,
      s.projects = before ++ p :: after
      ∧ (∀ q ∈ before, q.id ≠ targetId)
      ∧ p.id = targetId
      ∧ (moveProject s targetId st).1.projects
          = before ++ { p with status := st } :: after
      ∧ (moveProject s targetId st).1.listeners = s.listeners
      ∧ (moveProject s targetId st).2 = some ((moveProject s targetId st).1.projects) := by
  obtain ⟨l₁, l₂, hsplit, hmiss, hmatch⟩ := find?_decomp _ s.projects p hfind
  have hpid : p.id = targetId := by simpa using hmatch
  have hmiss' : ∀ q ∈ l₁, q.id ≠ targetId := by
    intro q hq
    have := hmiss q hq
    simpa using this
  have hmove : moveProject s targetId st
      = (⟨setStatusFirst s.projects targetId st, s.listeners⟩,
         some (setStatusFirst s.projects targetId st)) := by
    simp [moveProject, hfind, hdiff]
  refine ⟨l₁, l₂, hsplit, hmiss', hpid, ?_, ?_, ?_⟩
  · rw [hmove]
    simp only []
    rw [hsplit, setStatusFirst_decomp targetId st p hpid l₁ l₂ hmiss']
  · rw [hmove]
  · rw [hmove]

/-- Witness for C2 at a concrete store: one Active project moved to
Finished. -/
theorem moveProject_moves_witness :
    ∃ before after,
      (⟨[⟨['a'], ['t'], ['d'], 3, ProjectStatus.Active⟩], 2⟩ : ProjectState).projects
        = before ++ (⟨['a'], ['t'], ['d'], 3, ProjectStatus.Active⟩ : Project) :: after
      ∧ (∀ q ∈ before, q.id ≠ ['a'])
      ∧ (⟨['a'], ['t'], ['d'], 3, ProjectStatus.Active⟩ : Project).id = ['a']
      ∧ (moveProject ⟨[⟨['a'], ['t'], ['d'], 3, ProjectStatus.Active⟩], 2⟩ ['a']
          ProjectStatus.Finished).1.projects
          = before ++ ({ (⟨['a'], ['t'], ['d'], 3, ProjectStatus.Active⟩ : Project) with
              status := ProjectStatus.Finished }) :: after
      ∧ (moveProject ⟨[⟨['a'], ['t'], ['d'], 3, ProjectStatus.Active⟩], 2⟩ ['a']
          ProjectStatus.Finished).1.listeners = 2
      ∧ (moveProject ⟨[⟨['a'], ['t'], ['d'], 3, ProjectStatus.Active⟩], 2⟩ ['a']
          ProjectStatus.Finished).2
          = some ((moveProject ⟨[⟨['a'], ['t'], ['d'], 3, ProjectStatus.Active⟩], 2⟩ ['a']
              ProjectStatus.Finished).1.projects) :=
  moveProject_moves ⟨[⟨['a'], ['t'], ['d'], 3, ProjectStatus.Active⟩], 2⟩ ['a']
    ProjectStatus.Finished ⟨['a'], ['t'], ['d'], 3, ProjectStatus.Active⟩
    (by decide) (by decide)

/-- C3: when no project carries the requested id, or the located project
already has the requested status, `moveProject` returns the store
completely unchanged and fires no listener (and, being a total
function, raises no exception). -/
theorem moveProject_noop (s : ProjectState) (targetId : JStr) (st : ProjectStatus)
    (h : s.projects.find? (fun q => q.id = targetId) = none
       ∨ ∃ p, s.projects.find? (fun q => q.id = targetId) = some p ∧ p.status = st) :
    moveProject s targetId st = (s, none) := by
  rcases h with hnone | ⟨p, hsome, hst⟩
  · simp [moveProject, hnone]
  · simp [moveProject, hsome, hst]

/-- Witness for C3: an unknown id on a nonempty store, and a same-status
move, both leave the store untouched. -/
theorem moveProject_noop_witness :
    moveProject ⟨[⟨['a'], ['t'], ['d'], 3, ProjectStatus.Active⟩], 1⟩ ['z']
        ProjectStatus.Finished
      = (⟨[⟨['a'], ['t'], ['d'], 3, ProjectStatus.Active⟩], 1⟩, none)
    ∧ moveProject ⟨[⟨['a'], ['t'], ['d'], 3, ProjectStatus.Active⟩], 1⟩ ['a']
        ProjectStatus.Active
      = (⟨[⟨['a'], ['t'], ['d'], 3, ProjectStatus.Active⟩], 1⟩, none) :=
  ⟨moveProject_noop _ ['z'] ProjectStatus.Finished (Or.inl (by decide)),
   moveProject_noop _ ['a'] ProjectStatus.Active
     (Or.inr ⟨⟨['a'], ['t'], ['d'], 3, ProjectStatus.Active⟩, by decide, rfl⟩)⟩

/-- Every decimal digit character is non-whitespace. -/
theorem isJsWS_digitChar (d : Nat) : isJsWS (digitChar d) = false := by
  unfold digitChar
  split <;> decide

/-- Characters produced by the digit accumulator are digits or come from
the starting accumulator. -/
theorem mem_natToCharsCore :
    ∀ (fuel n : Nat) (acc : List Char) (c : Char),
      c ∈ natToCharsCore fuel n acc → c ∈ acc ∨ ∃ d, c = digitChar d := by
  intro fuel
  induction fuel with
  | zero => intro n acc c hc; exact Or.inl hc
  | succ fuel ih =>
    intro n acc c hc
    simp only [natToCharsCore] at hc
    by_cases hn : n < 10
    · rw [if_pos hn] at hc
      rcases List.mem_cons.mp hc with rfl | hc'
      · exact Or.inr ⟨n, rfl⟩
      · exact Or.inl hc'
    · rw [if_neg hn] at hc
      rcases ih (n / 10) (digitChar (n % 10) :: acc) c hc with hacc | hd
      · rcases List.mem_cons.mp hacc with rfl | hacc'
        · exact Or.inr ⟨n % 10, rfl⟩
        · exact Or.inl hacc'
      · exact Or.inr hd

/-- The digit accumulator never returns the empty list when it starts
with fuel or a nonempty accumulator. -/
theorem natToCharsCore_ne_nil :
    ∀ (fuel n : Nat) (acc : List Char), fuel ≠ 0 ∨ acc ≠ [] →
      natToCharsCore fuel n acc ≠ [] := by
  intro fuel
  induction fuel with
  | zero =>
    intro n acc h
    rcases h with h0 | hacc
    · exact absurd rfl h0
    · simpa [natToCharsCore] using hacc
  | succ fuel ih =>
    intro n acc _
    simp only [natToCharsCore]
    by_cases hn : n < 10
    · simp [if_pos hn]
    · rw [if_neg hn]
      exact ih (n / 10) (digitChar (n % 10) :: acc) (Or.inr (by simp))

/-- `natToChars` produces a nonempty list of digit characters. -/
theorem natToChars_ne_nil (n : Nat) : natToChars n ≠ [] :=
  natToCharsCore_ne_nil (n + 1) n [] (Or.inl (by simp))

/-- Every character of `natToChars` is a decimal digit. -/
theorem mem_natToChars (n : Nat) (c : Char) (hc : c ∈ natToChars n) :
    ∃ d, c = digitChar d := by
  rcases mem_natToCharsCore (n + 1) n [] c hc with habs | hd
  · simp at habs
  · exact hd

/-- Every character of the rendering of a number is non-whitespace. -/
theorem isJsWS_ratToChars (q : Rat) (c : Char) (hc : c ∈ ratToChars q) :
    isJsWS c = false := by
  have hint : ∀ (i : Int), c ∈ intToChars i → isJsWS c = false := by
    intro i hci
    unfold intToChars at hci
    by_cases hneg : i < 0
    · rw [if_pos hneg] at hci
      rcases List.mem_cons.mp hci with rfl | hci'
      · decide
      · obtain ⟨d, rfl⟩ := mem_natToChars _ _ hci'
        exact isJsWS_digitChar d
    · rw [if_neg hneg] at hci
      obtain ⟨d, rfl⟩ := mem_natToChars _ _ hci
      exact isJsWS_digitChar d
  unfold ratToChars at hc
  by_cases hden : q.den = 1
  · rw [if_pos hden] at hc
    exact hint q.num hc
  · rw [if_neg hden] at hc
    rcases List.mem_append.mp hc with hci | hcs
    · exact hint q.num hci
    · rcases List.mem_cons.mp hcs with rfl | hcd
      · decide
      · obtain ⟨d, rfl⟩ := mem_natToChars _ _ hcd
        exact isJsWS_digitChar d

/-- The rendering of an integer is never the empty string. -/
theorem intToChars_ne_nil (i : Int) : intToChars i ≠ [] := by
  unfold intToChars
  by_cases hneg : i < 0
  · rw [if_pos hneg]; simp
  · rw [if_neg hneg]; exact natToChars_ne_nil _

/-- The rendering of a number is never the empty string. -/
theorem ratToChars_ne_nil (q : Rat) : ratToChars q ≠ [] := by
  unfold ratToChars
  by_cases hden : q.den = 1
  · rw [if_pos hden]; exact intToChars_ne_nil _
  · rw [if_neg hden]
    intro habs
    exact intToChars_ne_nil q.num (List.append_eq_nil.mp habs).1

/-- `dropWhile` keeps a list none of whose elements satisfy the
predicate. -/
theorem dropWhile_eq_self_of_not (p : Char → Bool) (l : List Char)
    (h : ∀ c ∈ l, p c = false) : l.dropWhile p = l := by
  cases l with
  | nil => rfl
  | cons x xs =>
    rw [List.dropWhile_cons_of_neg]
    simp [h x (by simp)]

/-- Trimming a string with no whitespace characters is the identity. -/
theorem jsTrim_eq_self (s : JStr) (h : ∀ c ∈ s, isJsWS c = false) : jsTrim s = s := by
  unfold jsTrim
  rw [dropWhile_eq_self_of_not _ s h]
  rw [dropWhile_eq_self_of_not _ s.reverse (fun c hc => h c (List.mem_reverse.mp hc))]
  exact List.reverse_reverse s

/-- Trimming a string of only whitespace yields the empty string. -/
theorem jsTrim_eq_nil (s : JStr) (h : ∀ c ∈ s, isJsWS c = true) : jsTrim s = [] := by
  unfold jsTrim
  rw [List.dropWhile_eq_nil_iff.mpr (fun c hc => h c hc)]
  simp

/-- The required check on a numeric value always succeeds: the rendering
of a number is nonempty and free of whitespace. -/
theorem jsTrim_num_ne_nil (q : Rat) : jsTrim (JSValue.num q).jsToString ≠ [] := by
  show jsTrim (ratToChars q) ≠ []
  rw [jsTrim_eq_self _ (isJsWS_ratToChars q)]
  exact ratToChars_ne_nil q

/-- Shared helper: `validate`'s sequential accumulation equals the
conjunction of the five specification-side constraint checks. -/
theorem validate_eq_conj (v : Validatable) :
    validate v
      = (requiredPasses v && (minLengthPasses v && (maxLengthPasses v
          && (minPasses v && maxPasses v)))) := by
  obtain ⟨val, req, minL, maxL, mn, mx⟩ := v
  simp only [validate, requiredPasses, minLengthPasses, maxLengthPasses, minPasses, maxPasses]
  rcases val with s | q <;> rcases req with _ | rb <;>
    rcases minL with _ | m1 <;> rcases maxL with _ | m2 <;>
    rcases mn with _ | m3 <;> rcases mx with _ | m4 <;>
    (try cases rb) <;>
    simp [Bool.and_assoc]

/-- C4: for every input value and every combination of present optional
constraints, `validate` returns `true` if and only if every present
constraint passes — the length constraints applying only to string
values and the numeric constraints only to numeric values.  (`validate`
is a pure function of its argument in this embedding, matching the
code, which reads but never writes its input and touches no other
state.) -/
theorem validate_iff_all_pass (v : Validatable) :
    validate v = true ↔
      requiredPasses v = true ∧ minLengthPasses v = true ∧ maxLengthPasses v = true
        ∧ minPasses v = true ∧ maxPasses v = true := by
  rw [validate_eq_conj]
  simp [Bool.and_eq_true]

/-- Evaluation of C4 at a concrete input: the description validatable of
a four-character string fails exactly because `minLength` fails. -/
theorem validate_iff_all_pass_witness :
    (validate ⟨.str ['a', 'b', 'c', 'd'], some true, some 5, none, none, none⟩ = true ↔
      requiredPasses ⟨.str ['a', 'b', 'c', 'd'], some true, some 5, none, none, none⟩ = true
        ∧ minLengthPasses ⟨.str ['a', 'b', 'c', 'd'], some true, some 5, none, none, none⟩ = true
        ∧ maxLengthPasses ⟨.str ['a', 'b', 'c', 'd'], some true, some 5, none, none, none⟩ = true
        ∧ minPasses ⟨.str ['a', 'b', 'c', 'd'], some true, some 5, none, none, none⟩ = true
        ∧ maxPasses ⟨.str ['a', 'b', 'c', 'd'], some true, some 5, none, none, none⟩ = true) :=
  validate_iff_all_pass ⟨.str ['a', 'b', 'c', 'd'], some true, some 5, none, none, none⟩

/-- C9: the `required` check of `validate` passes exactly when the
string conversion of the value, trimmed of surrounding whitespace, is
nonempty.  Conjuncts: (1) whenever `required` is set, `validate`
succeeding forces the trimmed conversion nonempty; (2) with no other
constraint present, `validate` succeeds iff the trimmed conversion is
nonempty; (3) a string of only whitespace fails; (4) every numeric
value (including 0) passes. -/
theorem validate_required_semantics :
    (∀ v : Validatable, v.required = some true → validate v = true →
        (jsTrim v.value.jsToString).length ≠ 0)
    ∧ (∀ v : Validatable, v.required = some true → v.minLength = none → v.maxLength = none →
        v.min = none → v.max = none →
        (validate v = true ↔ (jsTrim v.value.jsToString).length ≠ 0))
    ∧ (∀ s : JStr, (∀ c ∈ s, isJsWS c = true) →
        validate ⟨.str s, some true, none, none, none, none⟩ = false)
    ∧ (∀ q : Rat, validate ⟨.num q, some true, none, none, none, none⟩ = true) := by
  refine ⟨?_, ?_, ?_, ?_⟩
  · intro v hreq hval
    rw [validate_eq_conj] at hval
    have hpass : requiredPasses v = true := by
      rcases Bool.and_eq_true_iff.mp hval with ⟨h, _⟩
      exact h
    simpa [requiredPasses, hreq] using hpass
  · intro v hreq h1 h2 h3 h4
    rw [validate_eq_conj]
    simp [requiredPasses, minLengthPasses, maxLengthPasses, minPasses, maxPasses,
      hreq, h1, h2, h3, h4]
  · intro s hws
    rw [validate_eq_conj]
    have : jsTrim (JSValue.str s).jsToString = [] := jsTrim_eq_nil s hws
    simp [requiredPasses, this]
  · intro q
    rw [validate_eq_conj]
    have h := jsTrim_num_ne_nil q
    simp [requiredPasses, minLengthPasses, maxLengthPasses, minPasses, maxPasses]
    simpa [← List.length_eq_zero] using h

/-- Witness for C9: a whitespace-only string fails the required check,
the number 0 passes it. -/
theorem validate_required_semantics_witness :
    validate ⟨.str [' ', ' '], some true, none, none, none, none⟩ = false
    ∧ validate ⟨.num 0, some true, none, none, none, none⟩ = true :=
  ⟨validate_required_semantics.2.2.1 [' ', ' '] (by decide),
   validate_required_semantics.2.2.2 0⟩

/-- C5: whenever any of the three validation requests fails, the submit
handler leaves the store's project list unchanged, broadcasts nothing to
listeners, leaves the form fields uncleared, and rejects the submission
with the user-facing alert. -/
theorem submitHandler_rejects (s : ProjectState) (f : InputFields) (peopleNum : Rat)
    (freshId : JStr)
    (h : validate (titleValidatable f) = false
       ∨ validate (descriptionValidatable f) = false
       ∨ validate (peopleValidatable peopleNum) = false) :
    submitHandler s f peopleNum freshId = ⟨s, none, f, true⟩ := by
  have hgather : gatherUserInput f peopleNum = none := by
    unfold gatherUserInput
    rcases h with h1 | h2 | h3
    · simp [h1]
    · simp [h2]
    · simp [h3]
  simp [submitHandler, hgather]

/-- Witness for C5: an empty title is rejected; store, listeners and
fields are untouched and the alert fires. -/
theorem submitHandler_rejects_witness :
    submitHandler ⟨[], 3⟩ ⟨[], ['v', 'a', 'l', 'i', 'd'], ['3']⟩ 3 ['i']
      = ⟨⟨[], 3⟩, none, ⟨[], ['v', 'a', 'l', 'i', 'd'], ['3']⟩, true⟩ :=
  submitHandler_rejects ⟨[], 3⟩ ⟨[], ['v', 'a', 'l', 'i', 'd'], ['3']⟩ 3 ['i']
    (Or.inl (by decide))

/-- Counterexample to C8 as stated: a submission whose people field
carries the value 3/2 passes all three validation requests and is
admitted into the store, yet 3/2 is not an integer.  (The `min`/`max`
checks bound the number but never test integrality, and the unary-plus
conversion of a form value such as `"1.5"` produces a fractional
number.) -/
theorem submitHandler_fractional_people :
    (submitHandler ⟨[], 1⟩ ⟨['t'], ['v', 'a', 'l', 'i', 'd'], ['1', '.', '5']⟩
        threeHalves ['i']).alerted = false
    ∧ (submitHandler ⟨[], 1⟩ ⟨['t'], ['v', 'a', 'l', 'i', 'd'], ['1', '.', '5']⟩
        threeHalves ['i']).state.projects
      = [⟨['i'], ['t'], ['v', 'a', 'l', 'i', 'd'], threeHalves, ProjectStatus.Active⟩]
    ∧ threeHalves.den ≠ 1 := by
  refine ⟨by decide, by decide, by decide⟩

/-- C8 amended: every project admitted through a validated submission
has a people field that is a number between 1 and 5 (in particular
strictly greater than 0) — integrality is not enforced — and its status
is the enum value `Active`. -/
theorem submitHandler_people_range (s : ProjectState) (f : InputFields) (peopleNum : Rat)
    (freshId : JStr)
    (h : (submitHandler s f peopleNum freshId).alerted = false) :
    1 ≤ peopleNum ∧ peopleNum ≤ 5 ∧ 0 < peopleNum
    ∧ (submitHandler s f peopleNum freshId).state.projects
        = s.projects
            ++ [⟨freshId, f.title, f.description, peopleNum, ProjectStatus.Active⟩] := by
  have hcond : (!validate (titleValidatable f) || !validate (descriptionValidatable f)
      || !validate (peopleValidatable peopleNum)) = false := by
    by_contra hc
    have hc' : (!validate (titleValidatable f) || !validate (descriptionValidatable f)
        || !validate (peopleValidatable peopleNum)) = true := by
      revert hc
      cases (!validate (titleValidatable f) || !validate (descriptionValidatable f)
        || !validate (peopleValidatable peopleNum)) <;> simp
    have hnone : gatherUserInput f peopleNum = none := by
      unfold gatherUserInput
      rw [if_pos hc']
    simp [submitHandler, hnone] at h
  have hgather : gatherUserInput f peopleNum = some (f.title, f.description, peopleNum) := by
    unfold gatherUserInput
    rw [if_neg (by simp [hcond])]
  have hall := hcond
  simp only [Bool.or_eq_false_iff, Bool.not_eq_false'] at hall
  have hpv : validate (peopleValidatable peopleNum) = true := hall.2
  have hrange : 1 ≤ peopleNum ∧ peopleNum ≤ 5 := by
    rw [validate_eq_conj] at hpv
    simp only [Bool.and_eq_true] at hpv
    have hmin := hpv.2.2.2.1
    have hmax := hpv.2.2.2.2
    constructor
    · simpa [minPasses, peopleValidatable] using hmin
    · simpa [maxPasses, peopleValidatable] using hmax
  refine ⟨hrange.1, hrange.2, lt_of_lt_of_le one_pos hrange.1 |>.trans_le' (by norm_num), ?_⟩
  simp [submitHandler, hgather, addProjects]

/-- Witness for the amended C8: a valid submission with people = 3 is
admitted with people in range and status Active. -/
theorem submitHandler_people_range_witness :
    (1 : Rat) ≤ 3 ∧ (3 : Rat) ≤ 5 ∧ (0 : Rat) < 3
    ∧ (submitHandler ⟨[], 1⟩ ⟨['t'], ['v', 'a', 'l', 'i', 'd'], ['3']⟩ 3 ['i']).state.projects
        = (⟨[], 1⟩ : ProjectState).projects
            ++ [⟨['i'], ['t'], ['v', 'a', 'l', 'i', 'd'], 3, ProjectStatus.Active⟩] :=
  submitHandler_people_range ⟨[], 1⟩ ⟨['t'], ['v', 'a', 'l', 'i', 'd'], ['3']⟩ 3 ['i']
    (by decide)

/-- Shared helper: after a sequence of calls the store's ids are the
initial ids followed by the generated ids, in call order. -/
theorem storeIds_runAdds (cs : List AddCall) :
    ∀ s : ProjectState, storeIds (runAdds s cs) = storeIds s ++ cs.map AddCall.newId := by
  induction cs with
  | nil => intro s; simp [runAdds]
  | cons c cs ih =>
    intro s
    rw [runAdds, ih]
    simp [addProjects, storeIds]

/-- Counterexample to C6 as stated: `Math.random().toString()` gives no
uniqueness guarantee and `addProjects` performs no duplicate check, so
a run in which the random source yields the same string twice leaves
the store with two equal ids. -/
theorem runAdds_duplicate_ids :
    ¬ List.Pairwise (fun a b => a ≠ b)
        (storeIds (runAdds ⟨[], 0⟩
          [⟨['0', '.', '5'], ['t'], ['d'], 1⟩, ⟨['0', '.', '5'], ['u'], ['e'], 2⟩])) := by
  decide

/-- C6 amended: provided the id source never yields the same string
twice during the store's lifetime (and none of them collides with an id
already present), the ids held in the store are pairwise distinct after
any sequence of `addProjects` calls.  The code itself performs no
uniqueness check. -/
theorem runAdds_nodup_ids (s : ProjectState) (cs : List AddCall)
    (h : (storeIds s ++ cs.map AddCall.newId).Nodup) :
    (storeIds (runAdds s cs)).Nodup := by
  rw [storeIds_runAdds]
  exact h

/-- Witness for the amended C6: two calls with distinct generated ids on
the empty store leave distinct ids. -/
theorem runAdds_nodup_ids_witness :
    (storeIds (runAdds ⟨[], 0⟩
      [⟨['a'], ['t'], ['d'], 1⟩, ⟨['b'], ['u'], ['e'], 2⟩])).Nodup :=
  runAdds_nodup_ids ⟨[], 0⟩ [⟨['a'], ['t'], ['d'], 1⟩, ⟨['b'], ['u'], ['e'], 2⟩]
    (by decide)

/-- Reading below the old length after allocating at the end is
unchanged. -/
theorem heapRead_append_self (l : ProjHeap) (x : List Project) (r : Nat)
    (hr : r < l.length) : heapRead (l ++ [x]) r = heapRead l r := by
  unfold heapRead
  exact List.getD_append _ _ _ _ hr

/-- Reading the freshly allocated cell yields its contents. -/
theorem heapRead_append_length (l : ProjHeap) (x : List Project) :
    heapRead (l ++ [x]) l.length = x := by
  unfold heapRead
  rw [List.getD_append_right _ _ _ _ (le_refl _)]
  simp

/-- Writing one cell does not change a different cell. -/
theorem heapRead_write_ne (l : ProjHeap) (r w : Nat) (x : List Project)
    (hne : w ≠ r) : heapRead (heapWrite l w x) r = heapRead l r := by
  unfold heapRead heapWrite
  rw [List.getD_eq_getD_get?, List.get?_set_ne _ _ hne, ← List.getD_eq_getD_get?]

/-- C7: the snapshot handed to listeners is a distinct array from the
store's canonical one: it has the same contents at notification time,
and any mutation a listener performs through the snapshot reference
(adding, removing or reordering elements — writing arbitrary new
contents) leaves the store's canonical list unchanged. -/
theorem addProjectsAlloc_snapshot_fresh (h : ProjHeap) (storeRef : Nat) (proj : Project)
    (href : storeRef < h.length) :
    (addProjectsAlloc h storeRef proj).2 ≠ storeRef
    ∧ heapRead (addProjectsAlloc h storeRef proj).1 (addProjectsAlloc h storeRef proj).2
        = heapRead (addProjectsAlloc h storeRef proj).1 storeRef
    ∧ ∀ mutated : List Project,
        heapRead
          (heapWrite (addProjectsAlloc h storeRef proj).1
            (addProjectsAlloc h storeRef proj).2 mutated)
          storeRef
        = heapRead (addProjectsAlloc h storeRef proj).1 storeRef := by
  have hfst : (addProjectsAlloc h storeRef proj).1
      = heapWrite h storeRef (heapRead h storeRef ++ [proj])
        ++ [heapRead (heapWrite h storeRef (heapRead h storeRef ++ [proj])) storeRef] := rfl
  have hsnd : (addProjectsAlloc h storeRef proj).2
      = (heapWrite h storeRef (heapRead h storeRef ++ [proj])).length := rfl
  have hlt : storeRef < (heapWrite h storeRef (heapRead h storeRef ++ [proj])).length := by
    simpa [heapWrite] using href
  refine ⟨?_, ?_, ?_⟩
  · rw [hsnd]
    exact ne_of_gt hlt
  · rw [hfst, hsnd, heapRead_append_length, heapRead_append_self _ _ _ hlt]
  · intro mutated
    rw [hfst, hsnd, heapRead_write_ne _ _ _ _ (ne_of_gt hlt)]

/-- Witness for C7 on a concrete heap: one store array holding one
project; after `addProjectsAlloc` the snapshot reference differs from
the store reference, agrees in contents, and a listener overwriting the
snapshot with the empty array leaves the store's list intact. -/
theorem addProjectsAlloc_snapshot_fresh_witness :
    (addProjectsAlloc [[⟨['a'], ['t'], ['d'], 3, ProjectStatus.Active⟩]] 0
        ⟨['b'], ['u'], ['e'], 2, ProjectStatus.Active⟩).2 ≠ 0
    ∧ heapRead (addProjectsAlloc [[⟨['a'], ['t'], ['d'], 3, ProjectStatus.Active⟩]] 0
          ⟨['b'], ['u'], ['e'], 2, ProjectStatus.Active⟩).1
        (addProjectsAlloc [[⟨['a'], ['t'], ['d'], 3, ProjectStatus.Active⟩]] 0
          ⟨['b'], ['u'], ['e'], 2, ProjectStatus.Active⟩).2
        = heapRead (addProjectsAlloc [[⟨['a'], ['t'], ['d'], 3, ProjectStatus.Active⟩]] 0
            ⟨['b'], ['u'], ['e'], 2, ProjectStatus.Active⟩).1 0
    ∧ ∀ mutated : List Project,
        heapRead
          (heapWrite (addProjectsAlloc [[⟨['a'], ['t'], ['d'], 3, ProjectStatus.Active⟩]] 0
              ⟨['b'], ['u'], ['e'], 2, ProjectStatus.Active⟩).1
            (addProjectsAlloc [[⟨['a'], ['t'], ['d'], 3, ProjectStatus.Active⟩]] 0
              ⟨['b'], ['u'], ['e'], 2, ProjectStatus.Active⟩).2 mutated)
          0
        = heapRead (addProjectsAlloc [[⟨['a'], ['t'], ['d'], 3, ProjectStatus.Active⟩]] 0
            ⟨['b'], ['u'], ['e'], 2, ProjectStatus.Active⟩).1 0 :=
  addProjectsAlloc_snapshot_fresh [[⟨['a'], ['t'], ['d'], 3, ProjectStatus.Active⟩]] 0
    ⟨['b'], ['u'], ['e'], 2, ProjectStatus.Active⟩ (by decide)

/-- Shared helper: a project matches the finished list exactly when it
does not match the active list (the status enum has exactly the two
values). -/
theorem matchesListType_finished_eq_not_active (p : Project) :
    matchesListType .finished p = !matchesListType .active p := by
  cases h : p.status <;> simp [matchesListType, h]

/-- C10: after every notification the two `ProjectList` views partition
the snapshot: the active view's `assignedProjects` are exactly the
snapshot's projects with status `Active`, the finished view's exactly
those with status `Finished`, every project of the snapshot lands in
exactly one of the two, and the two lengths add up to the snapshot's. -/
theorem assignedProjects_partition (projects : List Project) :
    (assignedProjectsAfter .active projects).length
        + (assignedProjectsAfter .finished projects).length = projects.length
    ∧ ∀ p : Project, p ∈ projects →
        (p ∈ assignedProjectsAfter .active projects ↔ p.status = ProjectStatus.Active)
        ∧ (p ∈ assignedProjectsAfter .finished projects ↔ p.status = ProjectStatus.Finished)
        ∧ ((p ∈ assignedProjectsAfter .active projects)
            ↔ ¬ (p ∈ assignedProjectsAfter .finished projects)) := by
  constructor
  · induction projects with
    | nil => rfl
    | cons q qs ih =>
      by_cases hq : matchesListType .active q = true
      · have hq' : matchesListType .finished q = false := by
          rw [matchesListType_finished_eq_not_active, hq]
          rfl
        simp only [assignedProjectsAfter] at ih ⊢
        rw [List.filter_cons_of_pos hq, List.filter_cons_of_neg (by simp [hq'])]
        simp only [List.length_cons]
        omega
      · have hq' : matchesListType .finished q = true := by
          rw [matchesListType_finished_eq_not_active]
          simp only [Bool.not_eq_true] at hq
          rw [hq]
          rfl
        simp only [assignedProjectsAfter] at ih ⊢
        rw [List.filter_cons_of_neg (by simpa using hq), List.filter_cons_of_pos hq']
        simp only [List.length_cons]
        omega
  · intro p hp
    have hact : p ∈ assignedProjectsAfter .active projects ↔ p.status = ProjectStatus.Active := by
      simp [assignedProjectsAfter, List.mem_filter, hp, matchesListType]
    have hfin : p ∈ assignedProjectsAfter .finished projects
        ↔ p.status = ProjectStatus.Finished := by
      simp [assignedProjectsAfter, List.mem_filter, hp, matchesListType]
    refine ⟨hact, hfin, ?_⟩
    rw [hact, hfin]
    cases h : p.status <;> simp

/-- Witness for C10 on a concrete snapshot of one Active and one
Finished project. -/
theorem assignedProjects_partition_witness :
    (assignedProjectsAfter .active
        [⟨['a'], ['t'], ['d'], 3, ProjectStatus.Active⟩,
         ⟨['b'], ['u'], ['e'], 2, ProjectStatus.Finished⟩]).length
      + (assignedProjectsAfter .finished
        [⟨['a'], ['t'], ['d'], 3, ProjectStatus.Active⟩,
         ⟨['b'], ['u'], ['e'], 2, ProjectStatus.Finished⟩]).length = 2
    ∧ ((⟨['a'], ['t'], ['d'], 3, ProjectStatus.Active⟩ : Project)
        ∈ assignedProjectsAfter .active
          [⟨['a'], ['t'], ['d'], 3, ProjectStatus.Active⟩,
           ⟨['b'], ['u'], ['e'], 2, ProjectStatus.Finished⟩]
      ↔ (⟨['a'], ['t'], ['d'], 3, ProjectStatus.Active⟩ : Project).status
          = ProjectStatus.Active) :=
  ⟨(assignedProjects_partition
      [⟨['a'], ['t'], ['d'], 3, ProjectStatus.Active⟩,
       ⟨['b'], ['u'], ['e'], 2, ProjectStatus.Finished⟩]).1,
   ((assignedProjects_partition
      [⟨['a'], ['t'], ['d'], 3, ProjectStatus.Active⟩,
       ⟨['b'], ['u'], ['e'], 2, ProjectStatus.Finished⟩]).2
      ⟨['a'], ['t'], ['d'], 3, ProjectStatus.Active⟩ (by decide)).1⟩
